import Mathlib

/-!
Shallow embedding of
`src/third_party/blink/renderer/bindings/scripts/web_idl/dictionary.py`
(Blink's WebIDL intermediate model of dictionary types).

The Python module defines two frozen entities built from mutable builders:

* `DictionaryMember.IR` (builder) → `DictionaryMember` (frozen member), and
* `Dictionary.IR` (builder) → `Dictionary` (frozen dictionary).

Modelling decisions, each tied to a line of the source:

* A Python `assert` that can fail on the modelled inputs is rendered by an
  `Option`-returning constructor (`none` = fatal assertion), e.g. the
  `assert not ir.is_partial` in `Dictionary.__init__` and the asserts of
  `DictionaryMember.IR.__init__`.
* `IdlType` and `LiteralConstant` are external opaque values; only
  `IdlType.is_optional` is read by this module, so `IdlType` is a name plus
  that flag, and `LiteralConstant` an opaque literal payload.
* The opaque payloads carried by the mixins (`extended_attributes`,
  `component`, `debug_info`) are modelled as `Option String` fields that are
  copied verbatim, mirroring how the module never interprets them.
* `RefById` (the lazily resolved reference to the parent dictionary) is the
  referenced identifier; `target_object` is a lookup in a resolution
  environment `ResolutionEnv`, the external "resolve identifier to built
  entity" registry.
* The back-reference `owner` stored in a frozen member is rendered by the
  owning dictionary's identifier (frozen dictionaries are keyed by identifier
  in the surrounding `IRMap`); Lean's inductive values cannot hold the
  Python-style cyclic object reference itself.
* `sorted(own_members, key=lambda member: member.identifier)` is stable and
  compares identifiers by code point.  It is rendered by the stable
  `List.insertionSort` under the code-point comparator `strLe`; the output of
  a stable sort is uniquely determined by the comparator, so this is
  observably the same function.
* `Dictionary.members` recurses through the resolution environment, so its
  Lean rendering takes explicit fuel; the Python code has no cycle guard and
  diverges on a cyclic inheritance chain, which the fuel version renders by
  returning `none` at every fuel.
-/

namespace WebIdl

/-- Code-point lexicographic comparison of character lists, the order Python
uses on strings (`a <= b` on `str` compares code points left to right). -/
def charListLe : List Char → List Char → Bool
  | [], _ => true
  | _ :: _, [] => false
  | a :: as, b :: bs =>
    if a.val < b.val then true
    else if b.val < a.val then false
    else charListLe as bs

/-- Python string comparison `a <= b`, used by `sorted(..., key=...)` in
`Dictionary.members`. -/
def strLe (a b : String) : Bool := charListLe a.data b.data

/-- External type descriptor (`web_idl.IdlType`).  The dictionary module reads
only `is_optional` from it; the name keeps distinct descriptors distinct. -/
structure IdlType where
  type_name : String
  is_optional : Bool
deriving DecidableEq, Inhabited

/-- External literal value (`web_idl.LiteralConstant`), an opaque default
value payload: the module only stores and copies it. -/
structure LiteralConstant where
  literal : String
deriving DecidableEq, Inhabited

/-- Mutable builder of one dictionary member (`DictionaryMember.IR`), after
its `__init__` has validated it: `idl_type` is present and a default value is
only present on an optional type. -/
structure DictionaryMember.IR where
  identifier : String
  idl_type : IdlType
  default_value : Option LiteralConstant
  extended_attributes : Option String
  component : Option String
  debug_info : Option String
deriving DecidableEq, Inhabited

/-- Constructor `DictionaryMember.IR.__init__`.  The Python signature defaults
`idl_type` to `None`, and the body asserts
`isinstance(idl_type, IdlType)` (so a missing type is a fatal assertion) and
`not default_value or idl_type.is_optional` (a present default value on a
non-optional type is a fatal assertion).  A fatal assertion is rendered by
`none`. -/
def DictionaryMember.IR.init (identifier : String) (idl_type : Option IdlType)
    (default_value : Option LiteralConstant) (extended_attributes : Option String)
    (component : Option String) (debug_info : Option String) :
    Option DictionaryMember.IR :=
  match idl_type with
  | none => none
  | some t =>
    if default_value.isSome && ! t.is_optional then none
    else some ⟨identifier, t, default_value, extended_attributes, component, debug_info⟩

/-- Mutable builder of a dictionary (`Dictionary.IR`).  `inherited` is the
`RefById` to the parent dictionary, modelled by the referenced identifier. -/
structure Dictionary.IR where
  identifier : String
  is_partial : Bool
  inherited : Option String
  own_members : List DictionaryMember.IR
  extended_attributes : Option String
  component : Option String
  debug_info : Option String
deriving DecidableEq, Inhabited

/-- Frozen dictionary member (`DictionaryMember`), produced inside the owning
dictionary's freeze step.  `owner` is the back-reference to the owning
dictionary, rendered by that dictionary's identifier. -/
structure DictionaryMember where
  identifier : String
  idl_type : IdlType
  default_value : Option LiteralConstant
  extended_attributes : Option String
  component : Option String
  debug_info : Option String
  owner : String
deriving DecidableEq, Inhabited

/-- Constructor `DictionaryMember.__init__(ir, owner)`: deep-copies the
builder's fields (`make_copy(ir)`) and stores them together with the owner
back-reference.  Its asserts are `isinstance` checks that hold by typing. -/
def DictionaryMember.init (ir : DictionaryMember.IR) (owner : String) :
    DictionaryMember :=
  ⟨ir.identifier, ir.idl_type, ir.default_value, ir.extended_attributes,
    ir.component, ir.debug_info, owner⟩

/-- Property `DictionaryMember.is_required`:
`return not self._idl_type.is_optional`. -/
def DictionaryMember.is_required (m : DictionaryMember) : Bool :=
  ! m.idl_type.is_optional

/-- Frozen dictionary (`Dictionary`).  `inherited_ref` models the stored
`self._inherited` reference (a `RefById` or `None`); `own_members` is the
frozen member tuple in declaration order. -/
structure Dictionary where
  identifier : String
  inherited_ref : Option String
  own_members : List DictionaryMember
  extended_attributes : Option String
  component : Option String
  debug_info : Option String
deriving DecidableEq, Inhabited

/-- Constructor `Dictionary.__init__(ir)`: asserts `not ir.is_partial` (a
partial fragment must not be frozen; rendered by `none`), deep-copies the
builder, and freezes each own member with `owner=self`. -/
def Dictionary.init (ir : Dictionary.IR) : Option Dictionary :=
  if ir.is_partial then none
  else
    some ⟨ir.identifier, ir.inherited,
      ir.own_members.map (fun m => DictionaryMember.init m ir.identifier),
      ir.extended_attributes, ir.component, ir.debug_info⟩

/-- The external identifier-resolution capability behind `RefById`: maps an
identifier to the already-built dictionary it denotes, if any. -/
def ResolutionEnv : Type := String → Option Dictionary

/-- Property `Dictionary.inherited`:
`return self._inherited.target_object if self._inherited else None`, with
`target_object` resolved through the environment. -/
def Dictionary.inherited (env : ResolutionEnv) (d : Dictionary) :
    Option Dictionary :=
  match d.inherited_ref with
  | none => none
  | some r => env r

/-- Property `Dictionary.is_dictionary`: the `UserDefinedType` override
returning `True`. -/
def Dictionary.is_dictionary (_ : Dictionary) : Bool := true

/-- Python's `sorted(members, key=lambda member: member.identifier)`: the
stable sort of the members by identifier in code-point order. -/
def sortedByIdentifier (ms : List DictionaryMember) : List DictionaryMember :=
  List.insertionSort (fun a b => strLe a.identifier b.identifier = true) ms

/-- The inner recursion of `Dictionary.members`:

`collect_inherited_members(dictionary)` returns `[]` for `None` and
`collect_inherited_members(dictionary.inherited) + sorted(own_members, key=identifier)`
otherwise.  The Python recursion runs through the resolution environment and
has no cycle guard, so the Lean rendering takes explicit fuel and returns
`none` when the fuel is exhausted before the parent chain ends. -/
def collect_inherited_members (env : ResolutionEnv) :
    Nat → Option Dictionary → Option (List DictionaryMember)
  | _, none => some []
  | 0, some _ => none
  | fuel + 1, some d =>
    match collect_inherited_members env fuel (Dictionary.inherited env d) with
    | none => none
    | some ms => some (ms ++ sortedByIdentifier d.own_members)

/-- Property `Dictionary.members`:
`tuple(collect_inherited_members(self))`, at the given fuel. -/
def Dictionary.members (env : ResolutionEnv) (fuel : Nat) (d : Dictionary) :
    Option (List DictionaryMember) :=
  collect_inherited_members env fuel (some d)

/-- Whether the inheritance chain starting at the given dictionary reaches
`None` within `fuel` steps of `Dictionary.inherited`: the chain is finite and
acyclic through this environment. -/
def inheritance_chain_resolves (env : ResolutionEnv) :
    Nat → Option Dictionary → Bool
  | _, none => true
  | 0, some _ => false
  | fuel + 1, some d =>
    inheritance_chain_resolves env fuel (Dictionary.inherited env d)

/-! Concrete fixtures used by the example parts of the claims and by the
witnesses: the `Base`/`Derived` pair of the member-order contract, an
optional and a non-optional type descriptor, and a self-referential
dictionary exhibiting a cyclic resolution environment. -/

/-- A non-optional type descriptor. -/
def longType : IdlType := ⟨"long", false⟩

/-- An optional type descriptor. -/
def optionalLongType : IdlType := ⟨"long", true⟩

/-- A member builder with the given identifier, a non-optional type and no
default value. -/
def mkMemberIR (id : String) : DictionaryMember.IR :=
  ⟨id, longType, none, none, none, none⟩

/-- Builder of dictionary `Base` with own members `[z, a]` in declaration
order. -/
def baseIR : Dictionary.IR :=
  ⟨"Base", false, none, [mkMemberIR "z", mkMemberIR "a"], none, none, none⟩

/-- The frozen `Base` dictionary. -/
def exBase : Dictionary := (Dictionary.init baseIR).getD default

/-- Builder of dictionary `Derived` inheriting `Base` with own members
`[m, b]` in declaration order. -/
def derivedIR : Dictionary.IR :=
  ⟨"Derived", false, some "Base", [mkMemberIR "m", mkMemberIR "b"], none, none,
    none⟩

/-- The frozen `Derived` dictionary. -/
def exDerived : Dictionary := (Dictionary.init derivedIR).getD default

/-- Resolution environment holding the frozen `Base` dictionary. -/
def exEnv : ResolutionEnv := fun s => if s = "Base" then some exBase else none

/-- A frozen dictionary whose inherited reference names itself. -/
def cyclicDict : Dictionary := ⟨"Cyc", some "Cyc", [], none, none, none⟩

/-- A resolution environment under which `cyclicDict` is its own parent. -/
def cyclicEnv : ResolutionEnv :=
  fun s => if s = "Cyc" then some cyclicDict else none

/-- Characterization of a successful freeze: `Dictionary.init ir = some d`
forces `ir` to be non-partial and determines every field of `d` from the
builder. -/
theorem Dictionary.init_eq_some (ir : Dictionary.IR) (d : Dictionary)
    (h : Dictionary.init ir = some d) :
    ir.is_partial = false
    ∧ d.identifier = ir.identifier
    ∧ d.inherited_ref = ir.inherited
    ∧ d.own_members
        = ir.own_members.map (fun m => DictionaryMember.init m ir.identifier)
    ∧ d.extended_attributes = ir.extended_attributes
    ∧ d.component = ir.component
    ∧ d.debug_info = ir.debug_info := by
  unfold Dictionary.init at h
  by_cases hp : ir.is_partial
  · simp [hp] at h
  · simp [hp] at h
    subst h
    simp [hp]

/-! Heap-aliasing refinement of the freeze step.

The immutability-by-copy contract of `make_copy` is about object identity:
the frozen entity must not alias the mutable payload objects still reachable
from the builder.  To state that, the opaque payloads (`extended_attributes`,
`debug_info`) live in an explicit heap of addressed objects; a builder holds
addresses of payloads, `make_copy` allocates fresh addresses holding the same
contents, and the frozen entity stores the fresh addresses.  Mutating the
builder is writing through one of the builder's addresses.  Scalar fields
(identifier, type descriptor, default value, the inherited reference, the
partial flag) are immutable values in Python as well and stay values here. -/

/-- A heap of opaque payload objects: contents at each address, and the next
free address (every allocated address is below `next`). -/
structure HeapState where
  mem : Nat → String
  next : Nat

/-- Allocation: a fresh address holding the given contents. -/
def HeapState.alloc (s : HeapState) (v : String) : HeapState × Nat :=
  (⟨fun a => if a = s.next then v else s.mem a, s.next + 1⟩, s.next)

/-- Mutation of the payload object at an address. -/
def HeapState.write (s : HeapState) (a : Nat) (v : String) : HeapState :=
  ⟨fun x => if x = a then v else s.mem x, s.next⟩

/-- Member builder whose opaque payloads are heap addresses. -/
structure Heap.MemberIR where
  identifier : String
  idl_type : IdlType
  default_value : Option LiteralConstant
  extended_attributes : Nat
  debug_info : Nat

/-- Frozen member whose opaque payloads are heap addresses. -/
structure Heap.Member where
  identifier : String
  idl_type : IdlType
  default_value : Option LiteralConstant
  extended_attributes : Nat
  debug_info : Nat
  owner : String

/-- The `make_copy(ir)` step of `DictionaryMember.__init__`: fresh addresses
holding copies of the builder's payload contents. -/
def Heap.MemberIR.make_copy (s : HeapState) (ir : Heap.MemberIR) :
    HeapState × Heap.MemberIR :=
  let p1 := s.alloc (s.mem ir.extended_attributes)
  let p2 := p1.1.alloc (p1.1.mem ir.debug_info)
  (p2.1, { ir with extended_attributes := p1.2, debug_info := p2.2 })

/-- `DictionaryMember.__init__(ir, owner)` in the heap model: deep-copy, then
store the copied fields and the owner back-reference. -/
def Heap.Member.init (s : HeapState) (ir : Heap.MemberIR) (owner : String) :
    HeapState × Heap.Member :=
  let p := Heap.MemberIR.make_copy s ir
  (p.1, ⟨p.2.identifier, p.2.idl_type, p.2.default_value,
    p.2.extended_attributes, p.2.debug_info, owner⟩)

/-- The observable fields of a frozen member: its scalar fields and the
contents of its payload objects. -/
def Heap.Member.obs (s : HeapState) (m : Heap.Member) :
    String × IdlType × Option LiteralConstant × String × String × String :=
  (m.identifier, m.idl_type, m.default_value, s.mem m.extended_attributes,
    s.mem m.debug_info, m.owner)

/-- The observable contents of a member builder, as the frozen member built
from it with the given owner would expose them. -/
def Heap.MemberIR.obs (s : HeapState) (ir : Heap.MemberIR) (owner : String) :
    String × IdlType × Option LiteralConstant × String × String × String :=
  (ir.identifier, ir.idl_type, ir.default_value, s.mem ir.extended_attributes,
    s.mem ir.debug_info, owner)

/-- A member builder is well formed in a heap when its payload addresses are
allocated (below `next`). -/
def Heap.MemberIR.wf (ir : Heap.MemberIR) (s : HeapState) : Prop :=
  ir.extended_attributes < s.next ∧ ir.debug_info < s.next

/-- The payload addresses reachable from a member builder. -/
def Heap.MemberIR.addrs (ir : Heap.MemberIR) : List Nat :=
  [ir.extended_attributes, ir.debug_info]

/-- Dictionary builder whose opaque payloads are heap addresses. -/
structure Heap.DictIR where
  identifier : String
  is_partial : Bool
  inherited : Option String
  own_members : List Heap.MemberIR
  extended_attributes : Nat
  debug_info : Nat

/-- Frozen dictionary whose opaque payloads are heap addresses. -/
structure Heap.Dict where
  identifier : String
  inherited_ref : Option String
  own_members : List Heap.Member
  extended_attributes : Nat
  debug_info : Nat

/-- Freezing the member builders of a dictionary in declaration order. -/
def Heap.members_init (owner : String) :
    HeapState → List Heap.MemberIR → HeapState × List Heap.Member
  | s, [] => (s, [])
  | s, ir :: rest =>
    let p := Heap.Member.init s ir owner
    let q := Heap.members_init owner p.1 rest
    (q.1, p.2 :: q.2)

/-- The `make_copy(ir)` step of `Dictionary.__init__` on the dictionary's own
payloads: fresh addresses holding copies of their contents.  Returns the new
heap and the two fresh addresses. -/
def Heap.DictIR.make_copy (s : HeapState) (ir : Heap.DictIR) :
    HeapState × Nat × Nat :=
  let p1 := s.alloc (s.mem ir.extended_attributes)
  let p2 := p1.1.alloc (p1.1.mem ir.debug_info)
  (p2.1, p1.2, p2.2)

/-- The copying effect of `Dictionary.__init__(ir)` past its assertion:
deep-copy the dictionary's own payloads, then freeze every member builder
with the new dictionary as owner. -/
def Heap.Dict.freeze (s : HeapState) (ir : Heap.DictIR) :
    HeapState × Heap.Dict :=
  let c := Heap.DictIR.make_copy s ir
  let q := Heap.members_init ir.identifier c.1 ir.own_members
  (q.1, ⟨ir.identifier, ir.inherited, q.2, c.2.1, c.2.2⟩)

/-- `Dictionary.__init__(ir)` in the heap model: the partial-fragment
assertion, then the copying effect. -/
def Heap.Dict.init (s : HeapState) (ir : Heap.DictIR) :
    Option (HeapState × Heap.Dict) :=
  if ir.is_partial then none else some (Heap.Dict.freeze s ir)

/-- The observable fields of a frozen dictionary: scalar fields, the
observables of its members in order, and its payload contents. -/
def Heap.Dict.obs (s : HeapState) (d : Heap.Dict) :
    String × Option String
      × List (String × IdlType × Option LiteralConstant × String × String
          × String)
      × String × String :=
  (d.identifier, d.inherited_ref, d.own_members.map (Heap.Member.obs s),
    s.mem d.extended_attributes, s.mem d.debug_info)

/-- The observable contents of a dictionary builder, as the frozen dictionary
built from it would expose them. -/
def Heap.DictIR.obs (s : HeapState) (ir : Heap.DictIR) :
    String × Option String
      × List (String × IdlType × Option LiteralConstant × String × String
          × String)
      × String × String :=
  (ir.identifier, ir.inherited,
    ir.own_members.map (fun m => Heap.MemberIR.obs s m ir.identifier),
    s.mem ir.extended_attributes, s.mem ir.debug_info)

/-- A dictionary builder is well formed in a heap when all payload addresses
reachable from it are allocated. -/
def Heap.DictIR.wf (ir : Heap.DictIR) (s : HeapState) : Prop :=
  ir.extended_attributes < s.next ∧ ir.debug_info < s.next
    ∧ ∀ m ∈ ir.own_members, m.wf s

/-- The payload addresses reachable from a dictionary builder: its own and
those of its member builders. -/
def Heap.DictIR.addrs (ir : Heap.DictIR) : List Nat :=
  ir.extended_attributes :: ir.debug_info
    :: (ir.own_members.map Heap.MemberIR.addrs).flatten

/-! Lemmas about the heap model: allocation is fresh, freezing only
allocates, and the observables of a frozen entity are the builder's contents
at freeze time. -/

/-- Writing at one address leaves every other address unchanged. -/
theorem HeapState.write_mem (s : HeapState) (a : Nat) (v : String) (b : Nat)
    (h : b ≠ a) : (s.write a v).mem b = s.mem b := by
  simp [HeapState.write, h]

/-- The observables of a frozen member agree across heaps that agree on its
two payload addresses. -/
theorem Heap.Member.member_obs_congr (t u : HeapState) (m : Heap.Member)
    (h1 : t.mem m.extended_attributes = u.mem m.extended_attributes)
    (h2 : t.mem m.debug_info = u.mem m.debug_info) :
    Heap.Member.obs t m = Heap.Member.obs u m := by
  simp [Heap.Member.obs, h1, h2]

/-- The observable contents of a member builder agree across heaps that agree
on its two payload addresses. -/
theorem Heap.MemberIR.member_ir_obs_congr (t u : HeapState) (ir : Heap.MemberIR)
    (owner : String)
    (h1 : t.mem ir.extended_attributes = u.mem ir.extended_attributes)
    (h2 : t.mem ir.debug_info = u.mem ir.debug_info) :
    Heap.MemberIR.obs t ir owner = Heap.MemberIR.obs u ir owner := by
  simp [Heap.MemberIR.obs, h1, h2]

/-- The observables of a frozen dictionary agree across heaps that agree on
all its payload addresses. -/
theorem Heap.Dict.dict_obs_congr (t u : HeapState) (d : Heap.Dict)
    (h1 : t.mem d.extended_attributes = u.mem d.extended_attributes)
    (h2 : t.mem d.debug_info = u.mem d.debug_info)
    (h3 : ∀ fm ∈ d.own_members,
        t.mem fm.extended_attributes = u.mem fm.extended_attributes
        ∧ t.mem fm.debug_info = u.mem fm.debug_info) :
    Heap.Dict.obs t d = Heap.Dict.obs u d := by
  unfold Heap.Dict.obs
  rw [h1, h2, List.map_congr_left
    (fun fm hfm => Heap.Member.member_obs_congr t u fm (h3 fm hfm).1 (h3 fm hfm).2)]

/-- The observable contents of a dictionary builder agree across heaps that
agree on all payload addresses reachable from it. -/
theorem Heap.DictIR.dict_ir_obs_congr (t u : HeapState) (ir : Heap.DictIR)
    (h1 : t.mem ir.extended_attributes = u.mem ir.extended_attributes)
    (h2 : t.mem ir.debug_info = u.mem ir.debug_info)
    (h3 : ∀ m ∈ ir.own_members,
        t.mem m.extended_attributes = u.mem m.extended_attributes
        ∧ t.mem m.debug_info = u.mem m.debug_info) :
    Heap.DictIR.obs t ir = Heap.DictIR.obs u ir := by
  unfold Heap.DictIR.obs
  rw [h1, h2, List.map_congr_left
    (fun m hm => Heap.MemberIR.member_ir_obs_congr t u m ir.identifier (h3 m hm).1
      (h3 m hm).2)]

/-- Freezing a member allocates two fresh addresses, leaves every existing
object unchanged, and exposes exactly the builder's contents at freeze
time. -/
theorem Heap.Member.init_spec (s : HeapState) (ir : Heap.MemberIR)
    (owner : String) (hwf : ir.wf s) :
    (Heap.Member.init s ir owner).1.next = s.next + 2
    ∧ (∀ a, a < s.next → (Heap.Member.init s ir owner).1.mem a = s.mem a)
    ∧ Heap.Member.obs (Heap.Member.init s ir owner).1
        (Heap.Member.init s ir owner).2 = Heap.MemberIR.obs s ir owner
    ∧ (Heap.Member.init s ir owner).2.extended_attributes = s.next
    ∧ (Heap.Member.init s ir owner).2.debug_info = s.next + 1 := by
  obtain ⟨hea, hdi⟩ := hwf
  have hne2 : ir.debug_info ≠ s.next := Nat.ne_of_lt hdi
  refine ⟨rfl, ?_, ?_, rfl, rfl⟩
  · intro a ha
    have h1 : a ≠ s.next := Nat.ne_of_lt ha
    have h2 : a ≠ s.next + 1 := by omega
    simp [Heap.Member.init, Heap.MemberIR.make_copy, HeapState.alloc, h1, h2]
  · simp [Heap.Member.init, Heap.MemberIR.make_copy, HeapState.alloc,
      Heap.Member.obs, Heap.MemberIR.obs, hne2]

/-- Freezing a list of member builders allocates only fresh addresses, leaves
every existing object unchanged, and produces frozen members exposing exactly
the builders' contents at freeze time, in declaration order. -/
theorem Heap.members_init_spec (owner : String) (irs : List Heap.MemberIR) :
    ∀ s : HeapState, (∀ m ∈ irs, Heap.MemberIR.wf m s) →
      s.next ≤ (Heap.members_init owner s irs).1.next
      ∧ (∀ a, a < s.next → (Heap.members_init owner s irs).1.mem a = s.mem a)
      ∧ (Heap.members_init owner s irs).2.map
            (Heap.Member.obs (Heap.members_init owner s irs).1)
          = irs.map (fun m => Heap.MemberIR.obs s m owner)
      ∧ ∀ fm ∈ (Heap.members_init owner s irs).2,
          s.next ≤ fm.extended_attributes
          ∧ fm.extended_attributes < (Heap.members_init owner s irs).1.next
          ∧ s.next ≤ fm.debug_info
          ∧ fm.debug_info < (Heap.members_init owner s irs).1.next := by
  induction irs with
  | nil =>
    intro s _
    refine ⟨Nat.le_refl _, fun a _ => rfl, rfl, ?_⟩
    intro fm hfm
    simp [Heap.members_init] at hfm
  | cons ir rest ih =>
    intro s hwf
    have hw1 : Heap.MemberIR.wf ir s := hwf ir (List.mem_cons_self ir rest)
    obtain ⟨hnext, hpres, hobs, hea, hdi⟩ := Heap.Member.init_spec s ir owner
      hw1
    set p := Heap.Member.init s ir owner with hp
    have hwrest : ∀ m ∈ rest, Heap.MemberIR.wf m p.1 := by
      intro m hm
      obtain ⟨h1, h2⟩ := hwf m (List.mem_cons_of_mem ir hm)
      exact ⟨by omega, by omega⟩
    obtain ⟨qnext, qpres, qobs, qbounds⟩ := ih p.1 hwrest
    set q := Heap.members_init owner p.1 rest with hq
    have hunfold : Heap.members_init owner s (ir :: rest)
        = (q.1, p.2 :: q.2) := rfl
    rw [hunfold]
    dsimp only
    refine ⟨by omega, ?_, ?_, ?_⟩
    · intro a ha
      rw [qpres a (by omega), hpres a ha]
    · have h3a : Heap.Member.obs q.1 p.2 = Heap.MemberIR.obs s ir owner := by
        have e1 : q.1.mem p.2.extended_attributes
            = p.1.mem p.2.extended_attributes := qpres _ (by omega)
        have e2 : q.1.mem p.2.debug_info = p.1.mem p.2.debug_info :=
          qpres _ (by omega)
        rw [Heap.Member.member_obs_congr q.1 p.1 p.2 e1 e2, hobs]
      have h3b : q.2.map (Heap.Member.obs q.1)
          = rest.map (fun m => Heap.MemberIR.obs s m owner) := by
        rw [qobs]
        apply List.map_congr_left
        intro m hm
        obtain ⟨h1, h2⟩ := hwf m (List.mem_cons_of_mem ir hm)
        exact Heap.MemberIR.member_ir_obs_congr p.1 s m owner (hpres _ h1) (hpres _ h2)
      rw [List.map_cons, List.map_cons, h3a, h3b]
    · intro fm hfm
      rcases List.mem_cons.mp hfm with rfl | hfm
      · exact ⟨by omega, by omega, by omega, by omega⟩
      · obtain ⟨b1, b2, b3, b4⟩ := qbounds fm hfm
        exact ⟨by omega, b2, by omega, b4⟩

/-- The dictionary-level `make_copy` step allocates two fresh addresses
holding the payload contents and leaves every existing object unchanged. -/
theorem Heap.DictIR.make_copy_spec (s : HeapState) (ir : Heap.DictIR)
    (_hea : ir.extended_attributes < s.next) (hdi : ir.debug_info < s.next) :
    (Heap.DictIR.make_copy s ir).1.next = s.next + 2
    ∧ (∀ a, a < s.next → (Heap.DictIR.make_copy s ir).1.mem a = s.mem a)
    ∧ (Heap.DictIR.make_copy s ir).2.1 = s.next
    ∧ (Heap.DictIR.make_copy s ir).2.2 = s.next + 1
    ∧ (Heap.DictIR.make_copy s ir).1.mem s.next = s.mem ir.extended_attributes
    ∧ (Heap.DictIR.make_copy s ir).1.mem (s.next + 1)
        = s.mem ir.debug_info := by
  have hne2 : ir.debug_info ≠ s.next := Nat.ne_of_lt hdi
  refine ⟨rfl, ?_, rfl, rfl, ?_, ?_⟩
  · intro a ha
    have h1 : a ≠ s.next := Nat.ne_of_lt ha
    have h2 : a ≠ s.next + 1 := by omega
    simp [Heap.DictIR.make_copy, HeapState.alloc, h1, h2]
  · simp [Heap.DictIR.make_copy, HeapState.alloc]
  · simp [Heap.DictIR.make_copy, HeapState.alloc, hne2]

/-- Freezing a dictionary allocates only fresh addresses, leaves every
existing object unchanged, and exposes exactly the builder's observable
contents at freeze time. -/
theorem Heap.Dict.freeze_spec (s : HeapState) (ir : Heap.DictIR)
    (hwf : Heap.DictIR.wf ir s) :
    s.next ≤ (Heap.Dict.freeze s ir).1.next
    ∧ (∀ a, a < s.next → (Heap.Dict.freeze s ir).1.mem a = s.mem a)
    ∧ Heap.Dict.obs (Heap.Dict.freeze s ir).1 (Heap.Dict.freeze s ir).2
        = Heap.DictIR.obs s ir
    ∧ s.next ≤ (Heap.Dict.freeze s ir).2.extended_attributes
    ∧ (Heap.Dict.freeze s ir).2.extended_attributes
        < (Heap.Dict.freeze s ir).1.next
    ∧ s.next ≤ (Heap.Dict.freeze s ir).2.debug_info
    ∧ (Heap.Dict.freeze s ir).2.debug_info < (Heap.Dict.freeze s ir).1.next
    ∧ ∀ fm ∈ (Heap.Dict.freeze s ir).2.own_members,
        s.next ≤ fm.extended_attributes
        ∧ fm.extended_attributes < (Heap.Dict.freeze s ir).1.next
        ∧ s.next ≤ fm.debug_info
        ∧ fm.debug_info < (Heap.Dict.freeze s ir).1.next := by
  obtain ⟨hea, hdi, hm⟩ := hwf
  obtain ⟨cnext, cpres, cfst, csnd, cmem1, cmem2⟩ :=
    Heap.DictIR.make_copy_spec s ir hea hdi
  set c := Heap.DictIR.make_copy s ir with hc
  have hwmem : ∀ m ∈ ir.own_members, Heap.MemberIR.wf m c.1 := by
    intro m hmem
    obtain ⟨h1, h2⟩ := hm m hmem
    exact ⟨by omega, by omega⟩
  obtain ⟨qnext, qpres, qobs, qbounds⟩ :=
    Heap.members_init_spec ir.identifier ir.own_members c.1 hwmem
  set q := Heap.members_init ir.identifier c.1 ir.own_members with hq
  have hunfold : Heap.Dict.freeze s ir
      = (q.1, ⟨ir.identifier, ir.inherited, q.2, c.2.1, c.2.2⟩) := rfl
  rw [hunfold]
  dsimp only
  refine ⟨by omega, ?_, ?_, ?_, ?_, ?_, ?_, ?_⟩
  · intro a ha
    rw [qpres a (by omega), cpres a ha]
  · show (ir.identifier, ir.inherited, q.2.map (Heap.Member.obs q.1),
        q.1.mem c.2.1, q.1.mem c.2.2) = Heap.DictIR.obs s ir
    have e1 : q.1.mem c.2.1 = s.mem ir.extended_attributes := by
      rw [cfst, qpres s.next (by omega), cmem1]
    have e2 : q.1.mem c.2.2 = s.mem ir.debug_info := by
      rw [csnd, qpres (s.next + 1) (by omega), cmem2]
    have e3 : q.2.map (Heap.Member.obs q.1)
        = ir.own_members.map
            (fun m => Heap.MemberIR.obs s m ir.identifier) := by
      rw [qobs]
      apply List.map_congr_left
      intro m hmem
      obtain ⟨h1, h2⟩ := hm m hmem
      exact Heap.MemberIR.member_ir_obs_congr c.1 s m ir.identifier (cpres _ h1)
        (cpres _ h2)
    rw [e1, e2, e3]
    rfl
  · simp only [cfst]
    omega
  · simp only [cfst]
    omega
  · simp only [csnd]
    omega
  · simp only [csnd]
    omega
  · intro fm hfm
    obtain ⟨b1, b2, b3, b4⟩ := qbounds fm hfm
    exact ⟨by omega, b2, by omega, b4⟩

/-- C1: for every frozen Dictionary, the members query is the recursively
defined flattened view: `members(D)` is `members(parent(D))` concatenated
with `ownMembers(D)` sorted lexicographically by member identifier, the
absent parent contributing the empty sequence; in particular for `Base` with
own members `[z, a]` and `Derived` inheriting `Base` with own members
`[m, b]`, `Derived.members` is `[a, z, b, m]`. -/
theorem members_flattened_view (env : ResolutionEnv) (fuel : Nat)
    (d : Dictionary) (ms : List DictionaryMember)
    (h : collect_inherited_members env fuel (Dictionary.inherited env d)
      = some ms) :
    Dictionary.members env (fuel + 1) d
        = some (ms ++ sortedByIdentifier d.own_members)
    ∧ collect_inherited_members env fuel none = some []
    ∧ Dictionary.members exEnv 2 exDerived
        = some [DictionaryMember.init (mkMemberIR "a") "Base",
                DictionaryMember.init (mkMemberIR "z") "Base",
                DictionaryMember.init (mkMemberIR "b") "Derived",
                DictionaryMember.init (mkMemberIR "m") "Derived"] := by
  refine ⟨?_, ?_, by decide⟩
  · simp [Dictionary.members, collect_inherited_members, h]
  · cases fuel <;> simp [collect_inherited_members]

/-- Witness for C1 at the concrete `Derived` dictionary: one unfolding of the
recursion below the frozen `Base` parent. -/
theorem members_flattened_view_witness :
    Dictionary.members exEnv 2 exDerived
      = some ([DictionaryMember.init (mkMemberIR "a") "Base",
               DictionaryMember.init (mkMemberIR "z") "Base"]
          ++ sortedByIdentifier exDerived.own_members) :=
  (members_flattened_view exEnv 1 exDerived
    [DictionaryMember.init (mkMemberIR "a") "Base",
     DictionaryMember.init (mkMemberIR "z") "Base"] (by decide)).1

/-- C2: constructing a DictionaryMember builder fails (fatal assertion,
rendered `none`) when the declared type is missing, and when a default value
is present on a non-optional declared type; with an optional declared type
and a present default value it succeeds. -/
theorem member_ir_construction_contract :
    (∀ id dv ea c di,
        DictionaryMember.IR.init id none dv ea c di = none)
    ∧ (∀ id t l ea c di, t.is_optional = false →
        DictionaryMember.IR.init id (some t) (some l) ea c di = none)
    ∧ (∀ id t l ea c di, t.is_optional = true →
        DictionaryMember.IR.init id (some t) (some l) ea c di
          = some ⟨id, t, some l, ea, c, di⟩) := by
  refine ⟨fun id dv ea c di => rfl, ?_, ?_⟩
  · intro id t l ea c di h
    simp [DictionaryMember.IR.init, h]
  · intro id t l ea c di h
    simp [DictionaryMember.IR.init, h]

/-- Witness for C2 at concrete inputs: a missing type, a default on the
non-optional `long`, and a default on the optional `long?`. -/
theorem member_ir_construction_contract_witness :
    DictionaryMember.IR.init "x" none none none none none = none
    ∧ DictionaryMember.IR.init "x" (some longType) (some ⟨"0"⟩) none none none
        = none
    ∧ DictionaryMember.IR.init "x" (some optionalLongType) (some ⟨"0"⟩) none
        none none
        = some ⟨"x", optionalLongType, some ⟨"0"⟩, none, none, none⟩ :=
  ⟨member_ir_construction_contract.1 "x" none none none none,
   member_ir_construction_contract.2.1 "x" longType ⟨"0"⟩ none none none rfl,
   member_ir_construction_contract.2.2 "x" optionalLongType ⟨"0"⟩ none none
     none rfl⟩

/-- C3: freezing a dictionary builder whose partial flag is set fails with a
fatal assertion (rendered `none`) whatever the builder's other contents: no
frozen Dictionary is produced. -/
theorem freeze_rejects_partial_builder (ir : Dictionary.IR)
    (h : ir.is_partial = true) :
    Dictionary.init ir = none := by
  simp [Dictionary.init, h]

/-- Witness for C3: a concrete partial builder with otherwise valid
contents. -/
theorem freeze_rejects_partial_builder_witness :
    Dictionary.init ⟨"P", true, none, [mkMemberIR "x"], none, none, none⟩
      = none :=
  freeze_rejects_partial_builder
    ⟨"P", true, none, [mkMemberIR "x"], none, none, none⟩ rfl

/-- C5: for every frozen DictionaryMember, `is_required` is exactly the
negation of the declared type's `is_optional`; through the whole pipeline
(builder validation, then freeze) the declared type passed to the builder is
the single source of truth, with no independent flag. -/
theorem is_required_derived_from_optionality :
    (∀ m : DictionaryMember,
        DictionaryMember.is_required m = ! m.idl_type.is_optional)
    ∧ (∀ id t dv ea c di ir owner,
        DictionaryMember.IR.init id (some t) dv ea c di = some ir →
        DictionaryMember.is_required (DictionaryMember.init ir owner)
          = ! t.is_optional) := by
  refine ⟨fun m => rfl, ?_⟩
  intro id t dv ea c di ir owner h
  unfold DictionaryMember.IR.init at h
  by_cases hc : dv.isSome && ! t.is_optional
  · simp [hc] at h
  · simp [hc] at h
    subst h
    rfl

/-- Witness for C5: a frozen member with the optional `long?` type and a
default value is not required. -/
theorem is_required_derived_from_optionality_witness :
    DictionaryMember.is_required
        (DictionaryMember.init
          ⟨"x", optionalLongType, some ⟨"0"⟩, none, none, none⟩ "D")
      = ! optionalLongType.is_optional :=
  is_required_derived_from_optionality.2 "x" optionalLongType (some ⟨"0"⟩)
    none none none ⟨"x", optionalLongType, some ⟨"0"⟩, none, none, none⟩ "D"
    (by decide)

/-- C6: the ownMembers query of a frozen Dictionary is the builder's member
sequence frozen in the original declaration order, unsorted; in particular
`Derived` built with own members `[m, b]` reports them as `[m, b]`. -/
theorem own_members_declaration_order (ir : Dictionary.IR) (d : Dictionary)
    (h : Dictionary.init ir = some d) :
    d.own_members
        = ir.own_members.map (fun m => DictionaryMember.init m ir.identifier)
    ∧ List.map DictionaryMember.identifier exDerived.own_members
        = ["m", "b"] :=
  ⟨(Dictionary.init_eq_some ir d h).2.2.2.1, by decide⟩

/-- Witness for C6 at the concrete `Derived` builder. -/
theorem own_members_declaration_order_witness :
    exDerived.own_members
        = derivedIR.own_members.map
            (fun m => DictionaryMember.init m derivedIR.identifier)
    ∧ List.map DictionaryMember.identifier exDerived.own_members
        = ["m", "b"] :=
  own_members_declaration_order derivedIR exDerived (by decide)

/-- C7: freezing stores the builder's inherited reference, and the inherited
query resolves it through the external identifier-resolution capability: it
returns the parent Dictionary the reference resolves to, and absent when the
builder had no inherited reference. -/
theorem inherited_reference_resolution (ir : Dictionary.IR) (d : Dictionary)
    (env : ResolutionEnv) (h : Dictionary.init ir = some d) :
    (ir.inherited = none → Dictionary.inherited env d = none)
    ∧ (∀ r p, ir.inherited = some r → env r = some p →
        Dictionary.inherited env d = some p) := by
  have href := (Dictionary.init_eq_some ir d h).2.2.1
  constructor
  · intro hn
    simp [Dictionary.inherited, href, hn]
  · intro r p hr hp
    simp [Dictionary.inherited, href, hr, hp]

/-- Witness for C7: `Derived` resolves its inherited reference to the frozen
`Base` dictionary through the concrete environment. -/
theorem inherited_reference_resolution_witness :
    Dictionary.inherited exEnv exDerived = some exBase :=
  (inherited_reference_resolution derivedIR exDerived exEnv (by decide)).2
    "Base" exBase rfl (by decide)

/-- C9: every member of a frozen Dictionary's ownMembers carries the owner
back-reference to exactly that Dictionary (rendered by its identifier),
established by the freeze step. -/
theorem member_owner_back_reference (ir : Dictionary.IR) (d : Dictionary)
    (h : Dictionary.init ir = some d) :
    ∀ m ∈ d.own_members, m.owner = d.identifier := by
  obtain ⟨-, hid, -, hown, -⟩ := Dictionary.init_eq_some ir d h
  intro m hm
  rw [hown] at hm
  obtain ⟨mir, -, rfl⟩ := List.mem_map.mp hm
  rw [hid]
  rfl

/-- Witness for C9: the frozen `m` member of `Derived` names `Derived` as its
owner. -/
theorem member_owner_back_reference_witness :
    (DictionaryMember.init (mkMemberIR "m") "Derived").owner
      = exDerived.identifier :=
  member_owner_back_reference derivedIR exDerived (by decide)
    (DictionaryMember.init (mkMemberIR "m") "Derived") (by decide)

/-- C10: whenever the chain of inherited parents is finite and acyclic (it
reaches the absent parent within the given number of resolution steps), the
members recursion terminates with a result; the code has no cycle guard, and
on the concrete self-inheriting dictionary the recursion finds no result at
any fuel. -/
theorem members_terminate_on_resolving_chain :
    (∀ (env : ResolutionEnv) (fuel : Nat) (od : Option Dictionary),
        inheritance_chain_resolves env fuel od = true →
        ∃ ms, collect_inherited_members env fuel od = some ms)
    ∧ (∀ fuel, Dictionary.members cyclicEnv fuel cyclicDict = none) := by
  constructor
  · intro env fuel
    induction fuel with
    | zero =>
      intro od h
      cases od with
      | none => exact ⟨[], rfl⟩
      | some d => simp [inheritance_chain_resolves] at h
    | succ n ih =>
      intro od h
      cases od with
      | none => exact ⟨[], rfl⟩
      | some d =>
        obtain ⟨ms, hms⟩ := ih (Dictionary.inherited env d)
          (by simpa [inheritance_chain_resolves] using h)
        exact ⟨ms ++ sortedByIdentifier d.own_members,
          by simp [collect_inherited_members, hms]⟩
  · intro fuel
    induction fuel with
    | zero => rfl
    | succ n ih =>
      have hstep : Dictionary.inherited cyclicEnv cyclicDict
          = some cyclicDict := rfl
      unfold Dictionary.members at ih ⊢
      simp [collect_inherited_members, hstep, ih]

/-- Witness for C10: the two-level `Derived` chain resolves within two steps
and the members recursion succeeds there; the cyclic example diverges at fuel
three. -/
theorem members_terminate_on_resolving_chain_witness :
    (∃ ms, collect_inherited_members exEnv 2 (some exDerived) = some ms)
    ∧ Dictionary.members cyclicEnv 3 cyclicDict = none :=
  ⟨members_terminate_on_resolving_chain.1 exEnv 2 (some exDerived)
     (by decide),
   members_terminate_on_resolving_chain.2 3⟩

/-- C4: the freeze step deep-copies every field out of the builder, so
mutating the builder (writing through any payload address reachable from it)
after the frozen entity was produced changes no observable field of the
frozen DictionaryMember or Dictionary. -/
theorem freeze_deep_copy_frame :
    (∀ (s : HeapState) (ir : Heap.MemberIR) (owner : String) (a : Nat)
        (v : String), Heap.MemberIR.wf ir s → a ∈ Heap.MemberIR.addrs ir →
      Heap.Member.obs
          (HeapState.write (Heap.Member.init s ir owner).1 a v)
          (Heap.Member.init s ir owner).2
        = Heap.Member.obs (Heap.Member.init s ir owner).1
          (Heap.Member.init s ir owner).2)
    ∧ ∀ (s : HeapState) (ir : Heap.DictIR) (a : Nat) (v : String),
        Heap.DictIR.wf ir s → a ∈ Heap.DictIR.addrs ir →
      Heap.Dict.obs (HeapState.write (Heap.Dict.freeze s ir).1 a v)
          (Heap.Dict.freeze s ir).2
        = Heap.Dict.obs (Heap.Dict.freeze s ir).1
          (Heap.Dict.freeze s ir).2 := by
  constructor
  · intro s ir owner a v hwf ha
    have haddr : a < s.next := by
      obtain ⟨h1, h2⟩ := hwf
      simp only [Heap.MemberIR.addrs, List.mem_cons,
        List.not_mem_nil, or_false] at ha
      rcases ha with rfl | rfl
      · exact h1
      · exact h2
    obtain ⟨-, -, -, hea, hdi⟩ := Heap.Member.init_spec s ir owner hwf
    exact Heap.Member.member_obs_congr _ _ _
      (HeapState.write_mem _ a v _ (by omega))
      (HeapState.write_mem _ a v _ (by omega))
  · intro s ir a v hwf ha
    have haddr : a < s.next := by
      obtain ⟨h1, h2, h3⟩ := hwf
      simp only [Heap.DictIR.addrs, List.mem_cons, List.mem_flatten,
        List.mem_map] at ha
      rcases ha with rfl | rfl | ⟨l, ⟨mir, hmir, rfl⟩, hal⟩
      · exact h1
      · exact h2
      · obtain ⟨g1, g2⟩ := h3 mir hmir
        simp only [Heap.MemberIR.addrs, List.mem_cons,
          List.not_mem_nil, or_false] at hal
        rcases hal with rfl | rfl
        · exact g1
        · exact g2
    obtain ⟨-, -, -, b1, -, b2, -, bm⟩ := Heap.Dict.freeze_spec s ir hwf
    apply Heap.Dict.dict_obs_congr
    · exact HeapState.write_mem _ a v _ (by omega)
    · exact HeapState.write_mem _ a v _ (by omega)
    · intro fm hfm
      obtain ⟨g1, -, g2, -⟩ := bm fm hfm
      exact ⟨HeapState.write_mem _ a v _ (by omega),
        HeapState.write_mem _ a v _ (by omega)⟩

/-- Heap used by the heap-model witnesses: six allocated payload objects. -/
def wHeap : HeapState := ⟨fun _ => "payload", 6⟩

/-- Member builder used by the heap-model witnesses. -/
def wMemIR : Heap.MemberIR := ⟨"x", longType, none, 0, 1⟩

/-- Dictionary builder used by the heap-model witnesses. -/
def wDictIR : Heap.DictIR := ⟨"W", false, none, [wMemIR], 2, 3⟩

/-- Witness for C4 at a concrete heap: mutating the member builder's first
payload after the freeze leaves the frozen member's observables unchanged. -/
theorem freeze_deep_copy_frame_witness :
    Heap.Member.obs
        (HeapState.write (Heap.Member.init wHeap wMemIR "W").1 0 "mutated")
        (Heap.Member.init wHeap wMemIR "W").2
      = Heap.Member.obs (Heap.Member.init wHeap wMemIR "W").1
        (Heap.Member.init wHeap wMemIR "W").2 :=
  freeze_deep_copy_frame.1 wHeap wMemIR "W" 0 "mutated"
    ⟨by decide, by decide⟩ (by decide)

/-- C8: construction is deterministic: freezing the same builder contents
twice produces frozen dictionaries with equal observable fields (identifier,
inherited reference, member sequence in order with all member fields, and
payload contents); the freeze of a non-partial builder is exactly the
copying effect. -/
theorem freeze_deterministic (s : HeapState) (ir : Heap.DictIR)
    (hwf : Heap.DictIR.wf ir s) (hnp : ir.is_partial = false) :
    Heap.Dict.init s ir = some (Heap.Dict.freeze s ir)
    ∧ Heap.Dict.obs (Heap.Dict.freeze (Heap.Dict.freeze s ir).1 ir).1
        (Heap.Dict.freeze s ir).2
      = Heap.Dict.obs (Heap.Dict.freeze (Heap.Dict.freeze s ir).1 ir).1
        (Heap.Dict.freeze (Heap.Dict.freeze s ir).1 ir).2 := by
  constructor
  · simp [Heap.Dict.init, hnp]
  · obtain ⟨nx1, pr1, ob1, a1, a2, a3, a4, am1⟩ :=
      Heap.Dict.freeze_spec s ir hwf
    have hwf2 : Heap.DictIR.wf ir (Heap.Dict.freeze s ir).1 := by
      obtain ⟨h1, h2, h3⟩ := hwf
      refine ⟨by omega, by omega, ?_⟩
      intro m hm
      obtain ⟨g1, g2⟩ := h3 m hm
      exact ⟨by omega, by omega⟩
    obtain ⟨nx2, pr2, ob2, -⟩ :=
      Heap.Dict.freeze_spec (Heap.Dict.freeze s ir).1 ir hwf2
    have step1 : Heap.Dict.obs (Heap.Dict.freeze (Heap.Dict.freeze s ir).1
          ir).1 (Heap.Dict.freeze s ir).2
        = Heap.Dict.obs (Heap.Dict.freeze s ir).1
          (Heap.Dict.freeze s ir).2 := by
      apply Heap.Dict.dict_obs_congr
      · exact pr2 _ a2
      · exact pr2 _ a4
      · intro fm hfm
        obtain ⟨-, g2, -, g4⟩ := am1 fm hfm
        exact ⟨pr2 _ g2, pr2 _ g4⟩
    have step2 : Heap.DictIR.obs (Heap.Dict.freeze s ir).1 ir
        = Heap.DictIR.obs s ir := by
      apply Heap.DictIR.dict_ir_obs_congr
      · exact pr1 _ hwf.1
      · exact pr1 _ hwf.2.1
      · intro m hm
        obtain ⟨g1, g2⟩ := hwf.2.2 m hm
        exact ⟨pr1 _ g1, pr1 _ g2⟩
    rw [step1, ob1, ob2, step2]

/-- Witness for C8 at a concrete heap and builder: two freezes of the same
builder contents expose equal observables. -/
theorem freeze_deterministic_witness :
    Heap.Dict.init wHeap wDictIR = some (Heap.Dict.freeze wHeap wDictIR)
    ∧ Heap.Dict.obs
        (Heap.Dict.freeze (Heap.Dict.freeze wHeap wDictIR).1 wDictIR).1
        (Heap.Dict.freeze wHeap wDictIR).2
      = Heap.Dict.obs
        (Heap.Dict.freeze (Heap.Dict.freeze wHeap wDictIR).1 wDictIR).1
        (Heap.Dict.freeze (Heap.Dict.freeze wHeap wDictIR).1 wDictIR).2 :=
  freeze_deterministic wHeap wDictIR
    ⟨by decide, by decide, by
      intro m hm
      rw [List.mem_singleton.mp hm]
      exact ⟨by decide, by decide⟩⟩ rfl

end WebIdl
